import Mathlib

/-!
Verification development for the binary-decoding core of the
near-crosschain-oracle-poc repository.

The embedded code comes from two source files:

- src/chainlink-functions/source.js : the minimal ASN.1 DER (TLV) decoder
  readLength and parseAsn1, the integer padding helper stripIntegerPadding,
  and the certificate navigator getSubjectPublicKeyInfoNode;
- src/relayer/src/relay.ts : the attested-message (VAA) payload extraction
  inside fetchVAA.

The JavaScript semantics is modelled faithfully:

- bytes are a List Nat of values below 256; an out-of-range indexed read on a
  Uint8Array or Buffer yields the JS value undefined, modelled as Option.none;
- the bitwise operators << and | in readLength operate on 32-bit signed
  integers (ToInt32), so the accumulated length is tracked as a bit pattern
  modulo 2^32 and reinterpreted as a signed integer at the end;
- Uint8Array.subarray clamps its two relative indices into the buffer and
  yields the empty array when the clamped start is not below the clamped end;
- parseAsn1 is a recursive function with no termination guarantee on
  adversarial inputs, so it is embedded with an explicit fuel parameter; the
  fueled function returns none exactly when the given fuel is insufficient.
-/

/-- Indexed read of a byte buffer, JS style: a read at a negative or
out-of-range index yields undefined, modelled as none. -/
def byteAt (bytes : List Nat) (i : Int) : Option Nat :=
  if i < 0 then none else bytes.get? i.toNat

/-- Clamp a relative index into a buffer of length len, following the
semantics of Uint8Array.subarray: a negative index counts from the end of the
buffer, and the result is clamped into the interval from 0 to len. -/
def clampIndex (len : Nat) (i : Int) : Nat :=
  if i < 0 then ((len : Int) + i).toNat else min i.toNat len

/-- The JS expression bytes.subarray(b, e): both indices are clamped with
clampIndex and the result is empty when the clamped start is at or past the
clamped end. -/
def jsSubarray (bytes : List Nat) (b e : Int) : List Nat :=
  (bytes.drop (clampIndex bytes.length b)).take
    (clampIndex bytes.length e - clampIndex bytes.length b)

/-- Reinterpret a 32-bit pattern (a Nat below 2^32) as a signed 32-bit
integer, as JS ToInt32 does for the result of the bitwise operators. -/
def int32OfPat (u : Nat) : Int :=
  if u < 2147483648 then (u : Int) else (u : Int) - 4294967296

/-- The accumulation loop of readLength in source.js:
for (let i = 0; i < numBytes; i++) length = (length << 8) | bytes[offset+1+i].
The accumulator is kept as its 32-bit pattern; each JS iteration stores an
Int32 whose pattern is (u * 256 + b) mod 2^32, with an undefined (out of
range) byte read contributing 0, because ToInt32(undefined) = 0. -/
def readLengthAcc (bytes : List Nat) : Int → Nat → Nat → Nat
  | _, 0, u => u
  | pos, n+1, u =>
    readLengthAcc bytes (pos + 1) n ((u * 256 + ((byteAt bytes pos).getD 0)) % 4294967296)

/-- Result record of readLength in source.js. -/
structure LenRes where
  length : Int
  lengthBytes : Nat
deriving DecidableEq, Repr

/-- The function readLength of src/chainlink-functions/source.js.
When the length byte itself is an out-of-range read (undefined), the JS
comparison undefined < 0x80 is false and undefined & 0x7f is 0, so the long
form path runs with zero subsequent bytes, giving length 0 and one length
byte; the none branch below returns exactly that. -/
def readLength (bytes : List Nat) (offset : Int) : LenRes :=
  match byteAt bytes offset with
  | some lenByte =>
    if lenByte < 128 then
      { length := (lenByte : Int), lengthBytes := 1 }
    else
      { length := int32OfPat (readLengthAcc bytes (offset + 1) (lenByte &&& 127) 0),
        lengthBytes := 1 + (lenByte &&& 127) }
  | none =>
    { length := 0, lengthBytes := 1 }

/-- The node record built by parseAsn1 in source.js. The field endOff is the
field named end in the source (end is a reserved word in Lean). The tag field
keeps the raw JS value: none models an undefined read past the buffer. -/
inductive Asn1Node : Type where
  | mk (tag : Option Nat) (tagClass : Nat) (tagNumber : Nat) (constructed : Bool)
      (start : Int) (endOff : Int) (length : Int) (value : List Nat)
      (sub : List Asn1Node)

def Asn1Node.tag : Asn1Node → Option Nat
  | .mk t _ _ _ _ _ _ _ _ => t

def Asn1Node.tagClass : Asn1Node → Nat
  | .mk _ c _ _ _ _ _ _ _ => c

def Asn1Node.tagNumber : Asn1Node → Nat
  | .mk _ _ n _ _ _ _ _ _ => n

def Asn1Node.constructed : Asn1Node → Bool
  | .mk _ _ _ c _ _ _ _ _ => c

def Asn1Node.start : Asn1Node → Int
  | .mk _ _ _ _ s _ _ _ _ => s

def Asn1Node.endOff : Asn1Node → Int
  | .mk _ _ _ _ _ e _ _ _ => e

def Asn1Node.length : Asn1Node → Int
  | .mk _ _ _ _ _ _ l _ _ => l

def Asn1Node.value : Asn1Node → List Nat
  | .mk _ _ _ _ _ _ _ v _ => v

def Asn1Node.sub : Asn1Node → List Asn1Node
  | .mk _ _ _ _ _ _ _ _ s => s

mutual

/-- The function parseAsn1 of src/chainlink-functions/source.js, with an
explicit fuel parameter: the JS original carries no termination guarantee on
adversarial inputs, and the fueled embedding returns none exactly when the
fuel is insufficient. The tag-derived fields use getD 0 because the JS
bitwise operators turn an undefined tag into 0. -/
def parseAsn1F : Nat → List Nat → Int → Option Asn1Node
  | 0, _, _ => none
  | fuel+1, bytes, offset0 =>
    let tag := byteAt bytes offset0
    let offset1 := offset0 + 1
    let lr := readLength bytes offset1
    let offset2 := offset1 + (lr.lengthBytes : Int)
    let endOff := offset2 + lr.length
    let t := tag.getD 0
    let constructed : Bool := t &&& 32 != 0
    let value := jsSubarray bytes offset2 endOff
    if constructed then
      match parseChildrenF fuel bytes offset2 endOff with
      | none => none
      | some children =>
        some (.mk tag (t >>> 6) (t &&& 31) constructed offset0 endOff lr.length value children)
    else
      some (.mk tag (t >>> 6) (t &&& 31) constructed offset0 endOff lr.length value [])

/-- The child loop of parseAsn1:
while (childOffset < end) push(parseAsn1(bytes, childOffset)); advance to
child.end. -/
def parseChildrenF : Nat → List Nat → Int → Int → Option (List Asn1Node)
  | 0, _, _, _ => none
  | fuel+1, bytes, childOffset, endOff =>
    if childOffset < endOff then
      match parseAsn1F fuel bytes childOffset with
      | none => none
      | some child =>
        match parseChildrenF fuel bytes child.endOff endOff with
        | none => none
        | some rest => some (child :: rest)
    else
      some []

end

/-- The payload extraction of fetchVAA in src/relayer/src/relay.ts:
signatureCount = vaaBytes[5]; payloadOffset = 6 + signatureCount*66 + 51;
payload = vaaBytes.slice(payloadOffset). When the buffer has fewer than 6
bytes the JS read vaaBytes[5] is undefined, payloadOffset is NaN, and
Buffer.slice(NaN) is slice(0), returning the entire buffer; Buffer.slice also
clamps a start past the end, which List.drop matches. -/
def extractPayload (vaaBytes : List Nat) : List Nat :=
  match vaaBytes[5]? with
  | some signatureCount => vaaBytes.drop (6 + signatureCount * 66 + 51)
  | none => vaaBytes

/-- The index computed by the while loop of stripIntegerPadding in source.js:
let i = 0; while (i < intBytes.length - 1 && intBytes[i] === 0x00) i++.
The loop runs at most length - 1 times, so a fuel of length suffices and the
wrapper below supplies it. -/
def stripIndexF : Nat → List Nat → Nat → Nat
  | 0, _, i => i
  | f+1, intBytes, i =>
    if i < intBytes.length - 1 ∧ intBytes.get? i = some 0 then stripIndexF f intBytes (i + 1)
    else i

/-- The function stripIntegerPadding of src/chainlink-functions/source.js:
return intBytes.subarray(i) for the loop index i above. -/
def stripIntegerPadding (intBytes : List Nat) : List Nat :=
  intBytes.drop (stripIndexF intBytes.length intBytes 0)

/-- Number of leading zero bytes of a buffer; used to state what the
stripping loop computes. -/
def countLeadingZeros : List Nat → Nat
  | [] => 0
  | b :: bs => if b = 0 then countLeadingZeros bs + 1 else 0

/-- The navigation part of getSubjectPublicKeyInfoNode in source.js, taking
the already-parsed certificate node: every throw is modelled as none. The
skip test mirrors tbs.sub[idx] && tagClass === 2 && tagNumber === 0 at
idx = 0, where an undefined element is falsy. -/
def locateSpki (certNode : Asn1Node) : Option Asn1Node :=
  if certNode.constructed = false ∨ certNode.sub.length < 1 then none
  else
    match certNode.sub.get? 0 with
    | none => none
    | some tbs =>
      if tbs.constructed = false then none
      else
        let idx : Nat :=
          match tbs.sub.get? 0 with
          | some c => if c.tagClass = 2 ∧ c.tagNumber = 0 then 1 else 0
          | none => 0
        tbs.sub.get? (idx + 5)

/-- The function getSubjectPublicKeyInfoNode of source.js: parse the DER
bytes from offset 0, then navigate to the subject-public-key-info node. -/
def getSubjectPublicKeyInfoNode (fuel : Nat) (certDer : List Nat) : Option Asn1Node :=
  match parseAsn1F fuel certDer 0 with
  | none => none
  | some certNode => locateSpki certNode

/-- Minimal big-endian base-256 digits of n, with an explicit fuel (a fuel of
n + 1 always suffices, see beBytes). -/
def natToBEBytesF : Nat → Nat → List Nat
  | 0, _ => []
  | f+1, n => if n < 256 then [n] else natToBEBytesF f (n / 256) ++ [n % 256]

/-- Minimal big-endian base-256 digits of n. -/
def beBytes (n : Nat) : List Nat := natToBEBytesF (n + 1) n

/-- Modelled from the spec: the DER length encoder described in section 8,
property P2 (there is no encoder in the source, only the decoder readLength).
Short form, a single byte, for values below 128; long form, a count byte with
the high bit set followed by that many big-endian length bytes, for 128 and
above. -/
def encodeLength (n : Nat) : List Nat :=
  if n < 128 then [n] else (128 + (beBytes n).length) :: beBytes n

/-- Chaining predicate for the child list of a constructed node: starting
from offset o, each child starts exactly where the previous one ended, a
child is only opened while the current offset is strictly below the declared
end, and the loop stops as soon as the offset reaches or passes it. -/
def childChain : Int → Int → List Asn1Node → Prop
  | o, stop, [] => ¬ o < stop
  | o, stop, c :: cs => o < stop ∧ c.start = o ∧ childChain c.endOff stop cs

/-- Plain big-endian accumulation of digits, without any 32-bit reduction. -/
def beFold (ds : List Nat) (u : Nat) : Nat := ds.foldl (fun a b => a * 256 + b) u

/-- Big-endian accumulation with the 32-bit reduction applied at each step,
matching the loop of readLength. -/
def modFold (ds : List Nat) (u : Nat) : Nat :=
  ds.foldl (fun a b => (a * 256 + b) % 4294967296) u

/-- A 55-byte buffer on which parseAsn1 never terminates: the outer SEQUENCE
declares end 62; the child at offset 2 ends at 10; the child at offset 10
declares long-form length 33 and ends at 49; the child at offset 49 declares
the long-form length bytes ff ff ff d3, which the Int32 arithmetic of
readLength turns into the negative length -45, so that child ends back at
offset 10 and the child loop alternates between offsets 10 and 49 forever. -/
def loopInput : List Nat :=
  [48, 60, 4, 6, 0, 0, 0, 0, 0, 0,
   4, 132, 0, 0, 0, 33,
   0, 0, 0, 0, 0, 0, 0, 0, 0, 0, 0, 0, 0, 0, 0, 0, 0,
   0, 0, 0, 0, 0, 0, 0, 0, 0, 0, 0, 0, 0, 0, 0, 0,
   4, 132, 255, 255, 255, 211]

/-!
Helper lemmas about the stripping loop of stripIntegerPadding.
-/

theorem countLeadingZeros_le (bs : List Nat) : countLeadingZeros bs ≤ bs.length := by
  induction bs with
  | nil => simp [countLeadingZeros]
  | cons b bs ih =>
    by_cases h : b = 0
    · simp [countLeadingZeros, h]; omega
    · simp [countLeadingZeros, h]

theorem get_lt_countLeadingZeros (bs : List Nat) (j : Nat) (h : j < countLeadingZeros bs) :
    bs.get? j = some 0 := by
  induction bs generalizing j with
  | nil => simp [countLeadingZeros] at h
  | cons b bs ih =>
    by_cases hb : b = 0
    · cases j with
      | zero => simp [hb]
      | succ j =>
        simp only [countLeadingZeros, hb, if_pos] at h
        exact ih j (by omega)
    · simp [countLeadingZeros, hb] at h

theorem get_countLeadingZeros_ne (bs : List Nat) : ¬ bs.get? (countLeadingZeros bs) = some 0 := by
  induction bs with
  | nil => simp [countLeadingZeros]
  | cons b bs ih =>
    by_cases hb : b = 0
    · simpa [countLeadingZeros, hb] using ih
    · simp [countLeadingZeros, hb]

theorem stripIndexF_spec (f : Nat) :
    ∀ (bs : List Nat) (i : Nat),
      i ≤ min (countLeadingZeros bs) (bs.length - 1) →
      bs.length - 1 - i ≤ f →
      stripIndexF f bs i = min (countLeadingZeros bs) (bs.length - 1) := by
  induction f with
  | zero =>
    intro bs i h1 h2
    have hcz := countLeadingZeros_le bs
    simp only [stripIndexF]
    omega
  | succ f ih =>
    intro bs i h1 h2
    have hcz := countLeadingZeros_le bs
    rw [stripIndexF]
    by_cases hlt : i < min (countLeadingZeros bs) (bs.length - 1)
    · have hz : bs.get? i = some 0 := get_lt_countLeadingZeros bs i (by omega)
      rw [if_pos ⟨by omega, hz⟩]
      exact ih bs (i + 1) (by omega) (by omega)
    · have hieq : i = min (countLeadingZeros bs) (bs.length - 1) := by omega
      have hcond : ¬ (i < bs.length - 1 ∧ bs.get? i = some 0) := by
        rintro ⟨hl, hzi⟩
        have hi : countLeadingZeros bs = i := by omega
        exact get_countLeadingZeros_ne bs (hi ▸ hzi)
      rw [if_neg hcond]
      exact hieq

theorem stripIntegerPadding_eq_drop (bs : List Nat) :
    stripIntegerPadding bs = bs.drop (min (countLeadingZeros bs) (bs.length - 1)) := by
  have hcz := countLeadingZeros_le bs
  unfold stripIntegerPadding
  rw [stripIndexF_spec bs.length bs 0 (by omega) (by omega)]

/-!
Claim C4. The claim states that when the extractor removes sign padding, at
most one leading zero byte is stripped, so an input with two or more leading
zeros keeps all but the first. The loop of stripIntegerPadding in fact keeps
stripping while more than one byte remains, so on 00 00 05 it returns 05 and
not 00 05: the claim is refuted and the corrected statement is that all
leading zero bytes are stripped, capped so that at least one byte remains.
-/

/-- Claim C4, counterexample: on the input 00 00 05, which has two leading
zero bytes and length three, stripIntegerPadding removes both zero bytes and
returns 05, not 00 05 as the claim demands. -/
theorem claim4_one_byte_cx :
    stripIntegerPadding [0, 0, 5] = [5] ∧ stripIntegerPadding [0, 0, 5] ≠ [0, 5] := by
  decide

/-- Claim C4, amended: stripIntegerPadding drops all leading zero bytes of
its input, except that the index is capped at length - 1 so that at least the
final byte always remains. -/
theorem claim4_strip_all (bs : List Nat) :
    stripIntegerPadding bs = bs.drop (min (countLeadingZeros bs) (bs.length - 1)) :=
  stripIntegerPadding_eq_drop bs

/-!
Claim C7: padding stripping preserves significance and never empties the
result.
-/

/-- Claim C7: the value 00 ff strips to ff, the value 00 00 strips to 00,
and stripping any non-empty buffer yields a non-empty result. -/
theorem claim7_padding :
    stripIntegerPadding [0, 255] = [255] ∧
    stripIntegerPadding [0, 0] = [0] ∧
    ∀ bs : List Nat, bs ≠ [] → stripIntegerPadding bs ≠ [] := by
  refine ⟨by decide, by decide, ?_⟩
  intro bs hne hd
  have hpos : 0 < bs.length := List.length_pos.mpr hne
  rw [stripIntegerPadding_eq_drop] at hd
  have hlen := congrArg List.length hd
  simp only [List.length_drop, List.length_nil] at hlen
  have : min (countLeadingZeros bs) (bs.length - 1) ≤ bs.length - 1 := min_le_right _ _
  omega

/-- Claim C7, witness: the single byte 09 is non-empty and strips to a
non-empty result. -/
theorem claim7_padding_witness : stripIntegerPadding [9] ≠ [] :=
  claim7_padding.2.2 [9] (by decide)

/-!
Claim C1 and claim C5: the attested-message payload extraction of fetchVAA.
-/

/-- Claim C1, counterexample: a 56-byte buffer with signatureCount 0 has
payloadOffset 57 beyond its end, yet extractPayload returns the empty
payload instead of failing; a 3-byte buffer is even shorter than the 6-byte
header, yet extractPayload returns the whole garbled buffer instead of
failing. No truncated-message error exists in fetchVAA. -/
theorem claim1_truncation_cx :
    extractPayload (List.replicate 56 0) = [] ∧ extractPayload [1, 2, 3] = [1, 2, 3] := by
  constructor
  · decide
  · decide

/-- Claim C1, amended: fetchVAA performs no truncation check and never
fails. When the buffer has fewer than 6 bytes, the JS read of byte 5 is
undefined, the computed offset is NaN, and slice(NaN) returns the entire
buffer; when byte 5 exists, the result is always the drop at the computed
payload offset, which is empty for any buffer shorter than that offset. -/
theorem claim1_no_truncation_check (bytes : List Nat) :
    (bytes.length < 6 → extractPayload bytes = bytes) ∧
    (∀ sc : Nat, bytes[5]? = some sc →
      extractPayload bytes = bytes.drop (6 + sc * 66 + 51)) := by
  constructor
  · intro h
    have h5 : bytes[5]? = none := by
      rw [List.getElem?_eq_none_iff]
      omega
    simp [extractPayload, h5]
  · intro sc h5
    simp [extractPayload, h5]

/-- Claim C1, witness for the amended statement, at a 3-byte buffer and at a
56-byte buffer. -/
theorem claim1_no_truncation_check_witness :
    extractPayload [1, 2, 3] = [1, 2, 3] ∧
    extractPayload (List.replicate 56 0) = List.drop 57 (List.replicate 56 0) :=
  ⟨(claim1_no_truncation_check [1, 2, 3]).1 (by decide),
   (claim1_no_truncation_check (List.replicate 56 0)).2 0 (by decide)⟩

/-- Claim C5: whenever byte 5 declares signatureCount sc and the buffer
reaches the payload offset 6 + sc * 66 + 51, extractPayload returns exactly
the bytes from that offset to the end, verbatim. -/
theorem claim5_payload_offset (bytes : List Nat) (sc : Nat)
    (h5 : bytes[5]? = some sc) (_hlen : 6 + sc * 66 + 51 ≤ bytes.length) :
    extractPayload bytes = bytes.drop (6 + sc * 66 + 51) := by
  simp [extractPayload, h5]

set_option maxRecDepth 8000 in
/-- Claim C5, witness: with signatureCount 0 the payload starts at byte 57,
and with signatureCount 2 it starts at byte 189. -/
theorem claim5_payload_offset_witness :
    extractPayload (List.replicate 57 0 ++ [7, 8]) =
      List.drop 57 (List.replicate 57 0 ++ [7, 8]) ∧
    extractPayload ([0, 0, 0, 0, 0, 2] ++ List.replicate 184 9) =
      List.drop 189 ([0, 0, 0, 0, 0, 2] ++ List.replicate 184 9) :=
  ⟨claim5_payload_offset (List.replicate 57 0 ++ [7, 8]) 0 rfl
     (by simp),
   claim5_payload_offset ([0, 0, 0, 0, 0, 2] ++ List.replicate 184 9) 2 rfl
     (by simp)⟩

/-!
Claim C10: the 0x80 length byte (the DER indefinite-length marker) is
silently decoded as a zero length.
-/

/-- Claim C10: a length byte 0x80 takes the long form path with a count of
zero subsequent bytes, so readLength returns length 0 with one length byte
consumed, and parseAsn1 turns an indefinite-length node such as 30 80 into a
constructed node with an empty value and no children instead of rejecting
it. -/
theorem claim10_indefinite_length :
    (∀ (bytes : List Nat) (offset : Int), byteAt bytes offset = some 128 →
      readLength bytes offset = { length := 0, lengthBytes := 1 }) ∧
    parseAsn1F 2 [48, 128] 0 = some (.mk (some 48) 0 16 true 0 2 0 [] []) := by
  constructor
  · intro bytes offset h
    have h127 : (128 &&& 127 : Nat) = 0 := rfl
    simp [readLength, h, h127, readLengthAcc, int32OfPat]
  · rfl

/-- Claim C10, witness: readLength on the single byte 0x80. -/
theorem claim10_indefinite_length_witness :
    readLength [128] 0 = { length := 0, lengthBytes := 1 } :=
  claim10_indefinite_length.1 [128] 0 rfl

/-!
Helper lemmas about the shape of nodes returned by parseAsn1F.
-/

theorem parseAsn1F_shape (fuel : Nat) (bytes : List Nat) (offset : Int) (n : Asn1Node)
    (h : parseAsn1F fuel bytes offset = some n) :
    n.start = offset ∧
    n.length = (readLength bytes (offset + 1)).length ∧
    n.endOff = offset + 1 + ((readLength bytes (offset + 1)).lengthBytes : Int) +
      (readLength bytes (offset + 1)).length ∧
    n.value = jsSubarray bytes (offset + 1 + ((readLength bytes (offset + 1)).lengthBytes : Int))
      (offset + 1 + ((readLength bytes (offset + 1)).lengthBytes : Int) +
        (readLength bytes (offset + 1)).length) := by
  cases fuel with
  | zero => simp [parseAsn1F] at h
  | succ f =>
    simp only [parseAsn1F] at h
    split at h
    · cases hc : parseChildrenF f bytes
        (offset + 1 + ((readLength bytes (offset + 1)).lengthBytes : Int))
        (offset + 1 + ((readLength bytes (offset + 1)).lengthBytes : Int) +
          (readLength bytes (offset + 1)).length) with
      | none => rw [hc] at h; simp at h
      | some children =>
        rw [hc] at h
        simp only [Option.some.injEq] at h
        subst h
        exact ⟨rfl, rfl, rfl, rfl⟩
    · simp only [Option.some.injEq] at h
      subst h
      exact ⟨rfl, rfl, rfl, rfl⟩

theorem parseAsn1F_start (fuel : Nat) (bytes : List Nat) (offset : Int) (n : Asn1Node)
    (h : parseAsn1F fuel bytes offset = some n) : n.start = offset :=
  (parseAsn1F_shape fuel bytes offset n h).1

theorem parseAsn1F_value_le (fuel : Nat) (bytes : List Nat) (offset : Int) (n : Asn1Node)
    (h : parseAsn1F fuel bytes offset = some n) : n.value.length ≤ bytes.length := by
  have hv := (parseAsn1F_shape fuel bytes offset n h).2.2.2
  rw [hv]
  simp only [jsSubarray, List.length_take, List.length_drop]
  omega

theorem parseChildrenF_chain (fuel : Nat) :
    ∀ (bytes : List Nat) (o e : Int) (l : List Asn1Node),
      parseChildrenF fuel bytes o e = some l → childChain o e l := by
  induction fuel with
  | zero => intro bytes o e l h; simp [parseChildrenF] at h
  | succ f ih =>
    intro bytes o e l h
    simp only [parseChildrenF] at h
    split at h
    · rename_i hlt
      split at h
      · simp at h
      · rename_i child hp
        split at h
        · simp at h
        · rename_i rest hr
          simp only [Option.some.injEq] at h
          subst h
          exact ⟨hlt, parseAsn1F_start f bytes o child hp, ih bytes child.endOff e rest hr⟩
    · rename_i hge
      simp only [Option.some.injEq] at h
      subst h
      simpa [childChain] using hge

/-!
Claim C2. The claim states that readLength rejects the reserved count byte
0x7f and that the decoder fails whenever a declared length or offset runs
past the end of the buffer. Neither function can fail: readLength on a count
byte of 0x7f simply reads 127 subsequent bytes, with out-of-range reads
contributing zero, and parseAsn1 happily builds a node whose declared end
lies beyond the buffer, clamping only the extracted value bytes.
-/

set_option maxRecDepth 8000 in
/-- Claim C2, counterexample: the buffer 04 05 declares a 5-byte value with
only 0 value bytes present, yet parseAsn1 produces a node with end offset 7
beyond the 2-byte buffer instead of failing; and readLength on the single
byte 0xff (count byte 0x7f, the reserved form) returns length 0 with 128
length bytes consumed instead of rejecting. -/
theorem claim2_reject_cx :
    parseAsn1F 2 [4, 5] 0 = some (.mk (some 4) 0 4 false 0 7 5 [] []) ∧
    readLength [255] 0 = { length := 0, lengthBytes := 128 } :=
  ⟨rfl, rfl⟩

/-- Claim C2, amended: the decoder never rejects. On a count byte 0x7f (a
length byte 0xff) readLength consumes 128 length bytes without failing, and
every node parseAsn1 returns has a value clamped into the actual buffer, even
when its declared end lies beyond the buffer. -/
theorem claim2_no_rejection :
    (∀ (bytes : List Nat) (offset : Int), byteAt bytes offset = some 255 →
      (readLength bytes offset).lengthBytes = 128) ∧
    (∀ (fuel : Nat) (bytes : List Nat) (offset : Int) (n : Asn1Node),
      parseAsn1F fuel bytes offset = some n → n.value.length ≤ bytes.length) := by
  constructor
  · intro bytes offset h
    have h127 : (255 &&& 127 : Nat) = 127 := rfl
    simp [readLength, h, h127]
  · exact fun fuel bytes offset n h => parseAsn1F_value_le fuel bytes offset n h

/-- Claim C2, witness: readLength on the single byte 0xff consumes 128
length bytes, and the node parsed from 04 05 has a value clamped into the
2-byte buffer. -/
theorem claim2_no_rejection_witness :
    (readLength [255] 0).lengthBytes = 128 ∧
    (Asn1Node.mk (some 4) 0 4 false 0 7 5 [] []).value.length ≤ 2 :=
  ⟨claim2_no_rejection.1 [255] 0 rfl,
   claim2_no_rejection.2 2 [4, 5] 0 (.mk (some 4) 0 4 false 0 7 5 [] []) rfl⟩

/-!
Claim C3. The claim states that the children of a constructed node exactly
cover the declared value and that any mismatch is rejected. The child loop of
parseAsn1 only checks childOffset < end before opening a child, so the last
child may overshoot the declared end and no exact-coverage check exists.
What does hold is the chaining property childChain: children are contiguous,
each starting where the previous ended, beginning at the value start, and the
loop stops at the first offset at or past the declared end.
-/

/-- Claim C3, counterexample: in the buffer 30 03 04 05 00 the outer
SEQUENCE declares a 3-byte value, but its single child declares a 5-byte
value and ends at offset 9, overshooting the parent end 5; parseAsn1
returns the node anyway, and the cumulative declared child length 5 differs
from the parent length 3, so no exact-coverage rejection happens. -/
theorem claim3_exact_cover_cx :
    parseAsn1F 3 [48, 3, 4, 5, 0] 0 =
      some (.mk (some 48) 0 16 true 0 5 3 [4, 5, 0]
        [.mk (some 4) 0 4 false 2 9 5 [0] []]) ∧
    (List.map Asn1Node.length [Asn1Node.mk (some 4) 0 4 false 2 9 5 [0] []]).sum ≠ (3 : Int) := by
  constructor
  · rfl
  · decide

/-- Claim C3, amended: for every constructed node parseAsn1 returns, the
children satisfy childChain from the value start to the declared end: they
are contiguous, each child starting exactly where the previous one ended, a
child is opened only while the offset is strictly below the declared end,
and the loop stops as soon as the offset reaches or passes it; the final
child may extend past the declared end and no exact-coverage rejection
exists. -/
theorem claim3_children_contiguous (fuel : Nat) (bytes : List Nat) (offset : Int) (n : Asn1Node)
    (h : parseAsn1F fuel bytes offset = some n) (hc : n.constructed = true) :
    childChain (n.endOff - n.length) n.endOff n.sub := by
  cases fuel with
  | zero => simp [parseAsn1F] at h
  | succ f =>
    simp only [parseAsn1F] at h
    split at h
    · cases hch : parseChildrenF f bytes
        (offset + 1 + ((readLength bytes (offset + 1)).lengthBytes : Int))
        (offset + 1 + ((readLength bytes (offset + 1)).lengthBytes : Int) +
          (readLength bytes (offset + 1)).length) with
      | none => rw [hch] at h; simp at h
      | some children =>
        rw [hch] at h
        simp only [Option.some.injEq] at h
        subst h
        simp only [Asn1Node.endOff, Asn1Node.length, Asn1Node.sub]
        have heq : offset + 1 + ((readLength bytes (offset + 1)).lengthBytes : Int) +
            (readLength bytes (offset + 1)).length - (readLength bytes (offset + 1)).length =
            offset + 1 + ((readLength bytes (offset + 1)).lengthBytes : Int) := by ring
        rw [heq]
        exact parseChildrenF_chain f bytes _ _ children hch
    · rename_i hfalse
      simp only [Option.some.injEq] at h
      subst h
      rw [Asn1Node.constructed] at hc
      exact absurd hc hfalse

/-- Claim C3, witness for the amended statement: the chain property for the
node parsed from 30 03 04 05 00, whose value starts at offset 2 and whose
declared end is 5. -/
theorem claim3_children_contiguous_witness :
    childChain (5 - 3 : Int) 5 [Asn1Node.mk (some 4) 0 4 false 2 9 5 [0] []] :=
  claim3_children_contiguous 3 [48, 3, 4, 5, 0] 0
    (.mk (some 48) 0 16 true 0 5 3 [4, 5, 0] [.mk (some 4) 0 4 false 2 9 5 [0] []]) rfl rfl

/-!
Claim C6: the certificate navigator skips exactly one leading child of the
to-be-signed structure precisely when that child is context-specific tag 0,
and then picks the element at relative position 5 after the skipped slot.
-/

/-- Claim C6: first, for any parsed certificate whose first child (the
to-be-signed structure) is constructed and has children, locateSpki skips one
slot exactly when the leading child has tag class 2 and tag number 0, then
returns the element at relative position 5 from the slot after the optional
field; second, the navigator finds the same node whether the optional
leading field is present or absent in otherwise identical trees. -/
theorem claim6_navigator :
    (∀ (cert tbs c : Asn1Node) (cs : List Asn1Node),
      cert.constructed = true → cert.sub.get? 0 = some tbs → tbs.constructed = true →
      tbs.sub = c :: cs →
      ((c.tagClass = 2 ∧ c.tagNumber = 0) → locateSpki cert = cs.get? 5) ∧
      (¬ (c.tagClass = 2 ∧ c.tagNumber = 0) → locateSpki cert = tbs.sub.get? 5)) ∧
    (∀ (cert1 cert2 tbs1 tbs2 opt : Asn1Node) (rest : List Asn1Node),
      cert1.constructed = true → cert2.constructed = true →
      cert1.sub.get? 0 = some tbs1 → cert2.sub.get? 0 = some tbs2 →
      tbs1.constructed = true → tbs2.constructed = true →
      tbs1.sub = opt :: rest → tbs2.sub = rest →
      opt.tagClass = 2 → opt.tagNumber = 0 →
      (∀ h : Asn1Node, rest.get? 0 = some h → ¬ (h.tagClass = 2 ∧ h.tagNumber = 0)) →
      locateSpki cert1 = locateSpki cert2 ∧ locateSpki cert1 = rest.get? 5) := by
  have hbase : ∀ (cert tbs : Asn1Node),
      cert.constructed = true → cert.sub.get? 0 = some tbs → tbs.constructed = true →
      locateSpki cert = tbs.sub.get?
        ((match tbs.sub.get? 0 with
          | some c => if c.tagClass = 2 ∧ c.tagNumber = 0 then 1 else 0
          | none => 0) + 5) := by
    intro cert tbs hc h0 htbs
    have hlen : ¬ cert.sub.length < 1 := by
      cases hcs : cert.sub with
      | nil => rw [hcs] at h0; simp at h0
      | cons a l => simp [hcs]
    rw [locateSpki, if_neg (by simp [hc, hlen]), h0]
    dsimp only
    rw [if_neg (by simp [htbs])]
  have hidx1 : ∀ (c : Asn1Node) (cs : List Asn1Node), (c.tagClass = 2 ∧ c.tagNumber = 0) →
      (match (c :: cs).get? 0 with
        | some x => if x.tagClass = 2 ∧ x.tagNumber = 0 then 1 else 0
        | none => 0) = 1 := by
    intro c cs hm
    simp only [List.get?_cons_zero]
    rw [if_pos hm]
  have hidx0 : ∀ (c : Asn1Node) (cs : List Asn1Node), ¬ (c.tagClass = 2 ∧ c.tagNumber = 0) →
      (match (c :: cs).get? 0 with
        | some x => if x.tagClass = 2 ∧ x.tagNumber = 0 then 1 else 0
        | none => 0) = 0 := by
    intro c cs hm
    simp only [List.get?_cons_zero]
    rw [if_neg hm]
  have hidxr : ∀ (rest : List Asn1Node),
      (∀ h : Asn1Node, rest.get? 0 = some h → ¬ (h.tagClass = 2 ∧ h.tagNumber = 0)) →
      (match rest.get? 0 with
        | some x => if x.tagClass = 2 ∧ x.tagNumber = 0 then 1 else 0
        | none => 0) = 0 := by
    intro rest hrest
    cases hr : rest.get? 0 with
    | none => rfl
    | some hd =>
      dsimp only
      rw [if_neg (hrest hd hr)]
  constructor
  · intro cert tbs c cs hc h0 htbs hsub
    have h := hbase cert tbs hc h0 htbs
    rw [hsub] at h
    constructor
    · intro hmatch
      rw [hidx1 c cs hmatch] at h
      rw [h]
      rfl
    · intro hmatch
      rw [hidx0 c cs hmatch] at h
      rw [h, hsub]
  · intro cert1 cert2 tbs1 tbs2 opt rest hc1 hc2 h01 h02 htbs1 htbs2 hsub1 hsub2 hoptc hoptn hrest
    have h1 := hbase cert1 tbs1 hc1 h01 htbs1
    have h2 := hbase cert2 tbs2 hc2 h02 htbs2
    rw [hsub1, hidx1 opt rest ⟨hoptc, hoptn⟩] at h1
    rw [hsub2, hidxr rest hrest] at h2
    constructor
    · rw [h1, h2]
      rfl
    · rw [h1]
      rfl

/-- Fixture leaf node for the navigator witness. -/
def fixtureLeaf (tc tn : Nat) : Asn1Node := .mk none tc tn false 0 0 0 [] []

/-- Fixture child list of the to-be-signed structure, without the optional
leading field: serial number, signature algorithm, issuer, validity,
subject, then the public-key-info slot. -/
def fixtureRest : List Asn1Node :=
  [fixtureLeaf 0 2, fixtureLeaf 0 16, fixtureLeaf 0 16,
   fixtureLeaf 0 16, fixtureLeaf 0 16, fixtureLeaf 0 17]

/-- Fixture optional leading field: context-specific tag 0. -/
def fixtureOpt : Asn1Node := .mk none 2 0 true 0 0 0 [] []

/-- Fixture to-be-signed structure with the optional field present. -/
def fixtureTbs1 : Asn1Node := .mk none 0 16 true 0 0 0 [] (fixtureOpt :: fixtureRest)

/-- Fixture to-be-signed structure with the optional field absent. -/
def fixtureTbs2 : Asn1Node := .mk none 0 16 true 0 0 0 [] fixtureRest

/-- Fixture certificate around fixtureTbs1. -/
def fixtureCert1 : Asn1Node := .mk none 0 16 true 0 0 0 [] [fixtureTbs1]

/-- Fixture certificate around fixtureTbs2. -/
def fixtureCert2 : Asn1Node := .mk none 0 16 true 0 0 0 [] [fixtureTbs2]

/-- Claim C6, witness: on two fixture trees differing only in the optional
leading field, the navigator returns the same public-key-info node. -/
theorem claim6_navigator_witness :
    locateSpki fixtureCert1 = locateSpki fixtureCert2 ∧
    locateSpki fixtureCert1 = some (fixtureLeaf 0 17) :=
  claim6_navigator.2 fixtureCert1 fixtureCert2 fixtureTbs1 fixtureTbs2 fixtureOpt fixtureRest
    rfl rfl rfl rfl rfl rfl rfl rfl rfl rfl
    (by
      intro h hh
      have hh2 : fixtureLeaf 0 2 = h := by
        have : fixtureRest.get? 0 = some (fixtureLeaf 0 2) := rfl
        rw [this] at hh
        exact Option.some.inj hh
      rw [← hh2]
      rintro ⟨ha, _⟩
      simp [fixtureLeaf, Asn1Node.tagClass] at ha)

/-!
Helper lemmas for the length round trip of claim C8.
-/

theorem beFold_append (xs : List Nat) (y u : Nat) :
    beFold (xs ++ [y]) u = beFold xs u * 256 + y := by
  simp [beFold, List.foldl_append]

theorem natToBEBytesF_fold : ∀ f n : Nat, n < f → beFold (natToBEBytesF f n) 0 = n := by
  intro f
  induction f with
  | zero => intro n h; omega
  | succ f ih =>
    intro n hn
    rw [natToBEBytesF]
    by_cases h : n < 256
    · rw [if_pos h]
      simp [beFold]
    · rw [if_neg h, beFold_append]
      have hdiv : n / 256 < f := by
        have := Nat.div_lt_self (show 0 < n by omega) (show 1 < 256 by omega)
        omega
      rw [ih (n / 256) hdiv]
      omega

theorem natToBEBytesF_length : ∀ f j n : Nat, n < f → 1 ≤ j → n < 256 ^ j →
    (natToBEBytesF f n).length ≤ j := by
  intro f
  induction f with
  | zero => intro j n h; omega
  | succ f ih =>
    intro j n hn hj hlt
    rw [natToBEBytesF]
    by_cases h : n < 256
    · rw [if_pos h]
      simpa using hj
    · rw [if_neg h]
      rw [List.length_append, List.length_singleton]
      have hj2 : 2 ≤ j := by
        by_contra hc
        have hja : j = 1 := by omega
        rw [hja, pow_one] at hlt
        omega
      have hpow : 256 ^ j = 256 * 256 ^ (j - 1) := by
        conv_lhs => rw [show j = 1 + (j - 1) by omega]
        rw [pow_add, pow_one]
      have hq : n / 256 < 256 ^ (j - 1) := Nat.div_lt_of_lt_mul (by omega)
      have hdiv : n / 256 < f := by
        have := Nat.div_lt_self (show 0 < n by omega) (show 1 < 256 by omega)
        omega
      have := ih (j - 1) (n / 256) hdiv (by omega) hq
      omega

theorem natToBEBytesF_ne_nil : ∀ f n : Nat, n < f → natToBEBytesF f n ≠ [] := by
  intro f n h
  cases f with
  | zero => omega
  | succ f =>
    rw [natToBEBytesF]
    by_cases hc : n < 256
    · rw [if_pos hc]; simp
    · rw [if_neg hc]; simp

theorem readLengthAcc_eq_modFold : ∀ (ds bytes : List Nat) (pos : Int) (u : Nat),
    (∀ j : Nat, j < ds.length → byteAt bytes (pos + (j : Int)) = ds.get? j) →
    readLengthAcc bytes pos ds.length u = modFold ds u := by
  intro ds
  induction ds with
  | nil => intro bytes pos u _; rfl
  | cons d ds ih =>
    intro bytes pos u h
    have h0 : byteAt bytes pos = some d := by simpa using h 0 (by simp)
    simp only [List.length_cons]
    rw [readLengthAcc, h0]
    simp only [Option.getD_some]
    rw [ih bytes (pos + 1) ((u * 256 + d) % 4294967296) ?_]
    · rfl
    · intro j hj
      have hh := h (j + 1) (by simp; omega)
      rw [show pos + 1 + (j : Int) = pos + ((j + 1 : Nat) : Int) by push_cast; ring]
      rw [hh]
      simp

theorem beFold_modeq (ds : List Nat) : ∀ u v : Nat, u % 4294967296 = v % 4294967296 →
    beFold ds u % 4294967296 = beFold ds v % 4294967296 := by
  induction ds with
  | nil => intro u v h; simpa [beFold] using h
  | cons d ds ih =>
    intro u v h
    show beFold ds (u * 256 + d) % 4294967296 = beFold ds (v * 256 + d) % 4294967296
    exact ih _ _ (Nat.ModEq.add_right d (Nat.ModEq.mul_right 256 h))

theorem modFold_cons (d : Nat) (ds : List Nat) (u : Nat) :
    modFold (d :: ds) u = modFold ds ((u * 256 + d) % 4294967296) := rfl

theorem beFold_cons (d : Nat) (ds : List Nat) (u : Nat) :
    beFold (d :: ds) u = beFold ds (u * 256 + d) := rfl

theorem modFold_eq_beFold (ds : List Nat) : ∀ u : Nat, ds ≠ [] →
    modFold ds u = beFold ds u % 4294967296 := by
  induction ds with
  | nil => intro u h; exact absurd rfl h
  | cons d ds ih =>
    intro u _
    cases ds with
    | nil => rfl
    | cons e es =>
      rw [modFold_cons, beFold_cons]
      rw [ih ((u * 256 + d) % 4294967296) (by simp)]
      exact beFold_modeq (e :: es) _ _ (by omega)

theorem readLength_encode_long (n : Nat) (h1 : 128 ≤ n) (h2 : n < 2147483648) :
    readLength (encodeLength n) 0 =
      { length := (n : Int), lengthBytes := (encodeLength n).length } := by
  have hlt : n < n + 1 := Nat.lt_succ_self n
  have hfold : beFold (beBytes n) 0 = n := natToBEBytesF_fold (n + 1) n hlt
  have hlen4 : (beBytes n).length ≤ 4 :=
    natToBEBytesF_length (n + 1) 4 n hlt (by omega)
      (by have hp : (256 : Nat) ^ 4 = 4294967296 := by norm_num
          omega)
  have hne : beBytes n ≠ [] := natToBEBytesF_ne_nil (n + 1) n hlt
  have hlen1 : 1 ≤ (beBytes n).length := List.length_pos.mpr hne
  have henc : encodeLength n = (128 + (beBytes n).length) :: beBytes n := by
    rw [encodeLength, if_neg (by omega)]
  rw [henc]
  have hhead : byteAt ((128 + (beBytes n).length) :: beBytes n) 0 =
      some (128 + (beBytes n).length) := rfl
  unfold readLength
  rw [hhead]
  dsimp only
  rw [if_neg (by omega)]
  have hand : ∀ k : Nat, 1 ≤ k → k ≤ 4 → (128 + k) &&& 127 = k := by
    intro k hk1 hk4
    interval_cases k <;> rfl
  rw [hand _ hlen1 hlen4]
  have hacc : readLengthAcc ((128 + (beBytes n).length) :: beBytes n) ((0 : Int) + 1)
      (beBytes n).length 0 = modFold (beBytes n) 0 := by
    apply readLengthAcc_eq_modFold
    intro j hj
    rw [byteAt, if_neg (by omega)]
    rw [show (((0 : Int) + 1 + (j : Int)).toNat) = j + 1 by omega]
    simp
  rw [hacc, modFold_eq_beFold _ 0 hne, hfold, Nat.mod_eq_of_lt (by omega)]
  rw [int32OfPat, if_pos h2]
  simp [List.length_cons]
  omega

/-!
Claim C8. The claim asserts the length round trip for every length. It holds
for every length below 2^31, including all the listed boundary values, but
fails at 2^31 and above: the JS shift-or accumulation in readLength is
32-bit signed arithmetic, so decoding the 4-byte big-endian encoding of
2^31 yields the negative length -2^31.
-/

/-- Claim C8, counterexample: encoding the length 2^31 in DER long form
(count byte 0x84, bytes 80 00 00 00) and decoding with readLength yields the
Int32-wrapped length -2147483648, not the original 2147483648. -/
theorem claim8_roundtrip_cx :
    (readLength (encodeLength 2147483648) 0).length = -2147483648 ∧
    ¬ (readLength (encodeLength 2147483648) 0).length = ((2147483648 : Nat) : Int) := by
  constructor
  · rfl
  · decide

/-- Claim C8, amended: for every length below 2^31, encoding it in DER form
(short form below 128, otherwise a count byte 0x80 + k followed by the k
minimal big-endian bytes) and decoding with readLength reproduces the
original length and the number of length bytes consumed. -/
theorem claim8_roundtrip (n : Nat) (h : n < 2147483648) :
    readLength (encodeLength n) 0 =
      { length := (n : Int), lengthBytes := (encodeLength n).length } := by
  by_cases h128 : n < 128
  · rw [encodeLength, if_pos h128]
    unfold readLength
    rw [show byteAt [n] 0 = some n from rfl]
    dsimp only
    rw [if_pos h128]
    rfl
  · exact readLength_encode_long n (by omega) h

/-- Claim C8, witness: the round trip at the boundary values 127, 128, 255,
256, 65535 and 65536. -/
theorem claim8_roundtrip_witness :
    readLength (encodeLength 127) 0 = { length := 127, lengthBytes := 1 } ∧
    readLength (encodeLength 128) 0 = { length := 128, lengthBytes := 2 } ∧
    readLength (encodeLength 255) 0 = { length := 255, lengthBytes := 2 } ∧
    readLength (encodeLength 256) 0 = { length := 256, lengthBytes := 3 } ∧
    readLength (encodeLength 65535) 0 = { length := 65535, lengthBytes := 3 } ∧
    readLength (encodeLength 65536) 0 = { length := 65536, lengthBytes := 4 } :=
  ⟨claim8_roundtrip 127 (by norm_num), claim8_roundtrip 128 (by norm_num),
   claim8_roundtrip 255 (by norm_num), claim8_roundtrip 256 (by norm_num),
   claim8_roundtrip 65535 (by norm_num), claim8_roundtrip 65536 (by norm_num)⟩

/-!
Claim C9. The claim asserts that parseAsn1 terminates on every finite input.
It does not: on loopInput the child loop of the outer SEQUENCE alternates
between offsets 10 and 49 forever, because the Int32 arithmetic of
readLength turns the length bytes ff ff ff d3 into -45, making the child at
offset 49 end back at offset 10. In the fueled embedding this shows up as
parseAsn1F returning none for every fuel value.
-/

/-- The leaf node parseAsn1 builds at offset 2 of loopInput. -/
def loopChild2 : Asn1Node := .mk (some 4) 0 4 false 2 10 6 [0, 0, 0, 0, 0, 0] []

/-- The leaf node parseAsn1 builds at offset 10 of loopInput: declared
length 33, ending at 49. -/
def loopChild10 : Asn1Node := .mk (some 4) 0 4 false 10 49 33 (List.replicate 33 0) []

/-- The leaf node parseAsn1 builds at offset 49 of loopInput: the Int32
arithmetic yields declared length -45, so the node ends at offset 10, before
its own start. -/
def loopChild49 : Asn1Node := .mk (some 4) 0 4 false 49 10 (-45) [] []

theorem parse_loopInput_2 : ∀ f : Nat, parseAsn1F (f + 1) loopInput 2 = some loopChild2 :=
  fun _ => rfl

theorem parse_loopInput_10 : ∀ f : Nat, parseAsn1F (f + 1) loopInput 10 = some loopChild10 :=
  fun _ => rfl

theorem parse_loopInput_49 : ∀ f : Nat, parseAsn1F (f + 1) loopInput 49 = some loopChild49 :=
  fun _ => rfl

theorem parseChildrenF_step (f : Nat) (bytes : List Nat) (co e : Int) (c : Asn1Node)
    (hlt : co < e) (hp : parseAsn1F f bytes co = some c) :
    parseChildrenF (f + 1) bytes co e =
      (parseChildrenF f bytes c.endOff e).map (fun rest => c :: rest) := by
  simp only [parseChildrenF]
  rw [if_pos hlt, hp]
  dsimp only
  cases parseChildrenF f bytes c.endOff e <;> rfl

theorem loop_stuck : ∀ f : Nat,
    parseChildrenF f loopInput 10 62 = none ∧ parseChildrenF f loopInput 49 62 = none := by
  intro f
  induction f using Nat.strong_induction_on with
  | _ f ih =>
    match f with
    | 0 => exact ⟨rfl, rfl⟩
    | 1 => exact ⟨rfl, rfl⟩
    | (g + 2) =>
      constructor
      · rw [parseChildrenF_step (g + 1) loopInput 10 62 loopChild10 (by norm_num)
          (parse_loopInput_10 g)]
        rw [show loopChild10.endOff = (49 : Int) from rfl]
        rw [(ih (g + 1) (by omega)).2]
        rfl
      · rw [parseChildrenF_step (g + 1) loopInput 49 62 loopChild49 (by norm_num)
          (parse_loopInput_49 g)]
        rw [show loopChild49.endOff = (10 : Int) from rfl]
        rw [(ih (g + 1) (by omega)).1]
        rfl

theorem parseAsn1F_constructed_none (f : Nat) (bytes : List Nat) (offset : Int)
    (hc : (((byteAt bytes offset).getD 0) &&& 32 != 0) = true)
    (h : parseChildrenF f bytes
      (offset + 1 + ((readLength bytes (offset + 1)).lengthBytes : Int))
      (offset + 1 + ((readLength bytes (offset + 1)).lengthBytes : Int) +
        (readLength bytes (offset + 1)).length) = none) :
    parseAsn1F (f + 1) bytes offset = none := by
  simp only [parseAsn1F]
  rw [if_pos hc, h]

/-- Claim C9: parseAsn1 does not terminate on every input. On the 55-byte
buffer loopInput, the fueled embedding fails for every fuel value: the
original JS recursion runs forever, alternating between child offsets 10
and 49 inside the outer child loop. -/
theorem claim9_nonterminating : ∀ fuel : Nat, parseAsn1F fuel loopInput 0 = none := by
  intro fuel
  match fuel with
  | 0 => rfl
  | 1 => rfl
  | 2 => rfl
  | (g + 3) =>
    apply parseAsn1F_constructed_none (g + 2) loopInput 0 rfl
    have hstep : parseChildrenF (g + 2) loopInput 2 62 = none := by
      rw [parseChildrenF_step (g + 1) loopInput 2 62 loopChild2 (by norm_num)
        (parse_loopInput_2 g)]
      rw [show loopChild2.endOff = (10 : Int) from rfl]
      rw [(loop_stuck (g + 1)).1]
      rfl
    exact hstep
